import Mathlib

/-!
Verification of the mcup client transport and session layer.

The definitions below are shallow embeddings of the Python sources:
  * `src/mcup/client/stdio/__init__.py` — stdio transport: line framer
    (`stdout_reader`), writer (`stdin_writer`), open failure path and the
    shutdown sequence of `stdio_client`;
  * `src/mcup/client/websocket.py` — websocket transport (`ws_reader`);
  * `src/mcup/client/mcup_session.py` — `MCUPSession.__init__` and
    `MCUPSession.call_tool` (the approval gate).

Python strings are embedded as `List Char`; text chunks arriving from the
process's stdout are lists of characters; Python's `str.split("\n")` is
embedded as `splitNl` below.
-/

namespace MCUP

/-! ### Framer

`stdout_reader` keeps a carry-over `buffer`, computes
`lines = (buffer + chunk).split("\n")`, pops the last element back into
`buffer`, and for each complete line either decodes a message or sends the
parse failure in-band.  `splitNl` is Python's `str.split("\n")`: it always
returns at least one element, and returns `[""]` on the empty string. -/

def splitNl : List Char → List (List Char)
  | [] => [[]]
  | c :: rest =>
    if c = '\n' then [] :: splitNl rest
    else
      match splitNl rest with
      | [] => [[c]]
      | l :: ls => (c :: l) :: ls

/-- One unit delivered on the inbound channel: a decoded message, or the
parse failure for a single line, delivered in-band. -/
inductive Decoded (Msg : Type) where
  | message : Msg → Decoded Msg
  | transportError : List Char → Decoded Msg
deriving DecidableEq, Repr

/-- Per-line decoding in `stdout_reader`: `model_validate_json` succeeds and
the message is forwarded, or the exception is sent in-band. -/
def decodeLine {Msg : Type} (p : List Char → Option Msg) (line : List Char) :
    Decoded Msg :=
  match p line with
  | some m => Decoded.message m
  | none => Decoded.transportError line

/-- One iteration of the `stdout_reader` loop body on a `chunk`:
`lines = (buffer + chunk).split("\n"); buffer = lines.pop()`, then each
complete line is decoded and delivered in order.  Returns the delivered
units and the new carry-over buffer. -/
def feed {Msg : Type} (p : List Char → Option Msg) (buffer chunk : List Char) :
    List (Decoded Msg) × List Char :=
  let segs := splitNl (buffer ++ chunk)
  (segs.dropLast.map (decodeLine p), segs.getLastD [])

/-- The whole `stdout_reader` loop over a sequence of arriving chunks. -/
def feedAll {Msg : Type} (p : List Char → Option Msg) (buffer : List Char) :
    List (List Char) → List (Decoded Msg) × List Char
  | [] => ([], buffer)
  | c :: cs =>
    let r := feed p buffer c
    let r' := feedAll p r.2 cs
    (r.1 ++ r'.1, r'.2)

/-- `ws_reader` in `websocket.py`: each websocket text frame is decoded
independently, validation failures are sent in-band. -/
def wsRead {Msg : Type} (p : List Char → Option Msg) (frames : List (List Char)) :
    List (Decoded Msg) :=
  frames.map (decodeLine p)

/-- `stdin_writer` / `encode`: a serialized message followed by a single
newline, parameterized by the serializer. -/
def encodeWith (ser : Nat → List Char) (m : Nat) : List Char :=
  ser m ++ ['\n']

/-! ### Modelled message codec

Modelled from the spec: the JSON-RPC message schema (`mcup.types.JSONRPCMessage`
with pydantic's `model_dump_json` / `model_validate_json`) is not under `src/`;
the spec treats a message as an opaque payload whose canonical JSON encoding
round-trips through encode→decode.  We model a message as an abstract payload
identified by a natural number, its canonical encoding as an injective
newline-free rendering delimited by braces, and validation as the partial
inverse (any other line is malformed). -/

def encodeJsonBody (m : Nat) : List Char :=
  '\x7b' :: (List.replicate m 'x' ++ ['\x7d'])

def decodeJsonTail : List Char → Option Nat
  | [] => none
  | c :: rest =>
    if c = '\x7d' then if rest = [] then some 0 else none
    else if c = 'x' then (decodeJsonTail rest).map (· + 1)
    else none

def validateJson : List Char → Option Nat
  | [] => none
  | c :: rest => if c = '\x7b' then decodeJsonTail rest else none

/-- `encode`: the canonical one-line wire form of a message (`stdin_writer`
writes `json + "\n"`). -/
def encodeMsg (m : Nat) : List Char :=
  encodeWith encodeJsonBody m

/-- Is this inbound unit a `TransportError` (an in-band parse failure)? -/
def Decoded.isError {Msg : Type} : Decoded Msg → Bool
  | .transportError _ => true
  | .message _ => false

/-- The decoded message carried by an inbound unit, if any. -/
def Decoded.msg? {Msg : Type} : Decoded Msg → Option Msg
  | .message m => some m
  | .transportError _ => none

/-! ### Approval gate (`MCUPSession.call_tool` in `mcup_session.py`) -/

/-- Python's `str.lower()` (ASCII range, as used by the keyword heuristic). -/
def pyLower (s : List Char) : List Char := s.map Char.toLower

/-- Characters removed by Python's default `str.strip()`. -/
def pyIsSpace (c : Char) : Bool :=
  c = ' ' || c = '\t' || c = '\n' || c = '\r' || c = '\x0b' || c = '\x0c'

/-- Python's `str.strip()`: drop leading and trailing whitespace. -/
def pyStrip (s : List Char) : List Char :=
  ((s.dropWhile pyIsSpace).reverse.dropWhile pyIsSpace).reverse

/-- Does the first list start with the second? (helper for Python's `in`). -/
def startsWithList : List Char → List Char → Bool
  | _, [] => true
  | [], _ :: _ => false
  | c :: hs, d :: ns => c == d && startsWithList hs ns

/-- Python's contiguous-substring test `needle in hay`. -/
def pyIn (needle : List Char) : List Char → Bool
  | [] => needle.isEmpty
  | c :: rest => startsWithList (c :: rest) needle || pyIn needle rest

/-- The default `mutating_tool_keywords` of `MCUPSession.__init__`. -/
def defaultMutatingToolKeywords : List (List Char) :=
  ["write".toList, "delete".toList, "update".toList, "create".toList,
   "modify".toList]

/-- Line 48 of `mcup_session.py`:
`any(keyword in name.lower() for keyword in self._mutating_tool_keywords)`.
Only the call name is lowercased; each keyword is used verbatim. -/
def isMutatingCall (keywords : List (List Char)) (name : List Char) : Bool :=
  keywords.any fun keyword => pyIn keyword (pyLower name)

/-- Classifier following the spec's words for claim C8 — "case-insensitive
substring match of any keyword against the call name", i.e. insensitive on
both sides.  Kept separate so it can be compared with `isMutatingCall`. -/
def specClassifyMutating (keywords : List (List Char)) (name : List Char) :
    Bool :=
  keywords.any fun keyword => pyIn (pyLower keyword) (pyLower name)

/-- The approval mode string compared against `self.approval_mode`. -/
def cliMode : List Char := ['c', 'l', 'i']

/-- Outcome of one `MCUPSession.call_tool` invocation.  `forwarded` means
`super().call_tool(name, arguments, ...)` was invoked with these values;
`deniedError` is the `ValueError` carrying the tool name raised on denial;
`inputFailed` means the exception raised by `ainput` was re-raised. -/
inductive CallOutcome (Args : Type) where
  | forwarded : List Char → Args → CallOutcome Args
  | deniedError : List Char → CallOutcome Args
  | inputFailed : CallOutcome Args
deriving DecidableEq

/-- `MCUPSession.call_tool` (lines 40–62 of `mcup_session.py`): classify the
name; when the call is mutating and `approval_mode == "cli"`, prompt and
read one line (`input` is the result of `ainput`: a line, or a read
failure).  Approve exactly when `user_input.strip().lower() == 'y'`; on any
other line raise the denial `ValueError` carrying the tool name; a failure
of the read itself is logged and re-raised.  Otherwise forward immediately.
The second component records whether the interactive prompt was shown. -/
def call_tool {Args : Type} (approvalMode : Option (List Char))
    (keywords : List (List Char)) (name : List Char) (arguments : Args)
    (input : Except Unit (List Char)) : CallOutcome Args × Bool :=
  if isMutatingCall keywords name = true ∧ approvalMode = some cliMode then
    match input with
    | .error _ => (.inputFailed, true)
    | .ok line =>
      if pyLower (pyStrip line) = ['y'] then (.forwarded name arguments, true)
      else (.deniedError name, true)
  else (.forwarded name arguments, false)

/-! ### Session construction (`MCUPSession.__init__`) and name resolution -/

/-- The names bound at module scope in `mcup_session.py`: its imports
(lines 1–6) bind `logging`, `Any`, `Optional`, `Set`, `ainput`,
`ClientSession`, `ProgressFnT` and `CallToolResult`; line 8 binds `logger`
and the class statement binds `MCUPSession`.  The name `types` is never
bound (line 6 imports `CallToolResult` *from* `mcup.types` without binding
`types`), and `types` is not a Python builtin. -/
def mcupSessionModuleNames : List String :=
  ["logging", "Any", "Optional", "Set", "ainput", "ClientSession",
   "ProgressFnT", "CallToolResult", "logger", "MCUPSession"]

/-- The `types.Implementation(name="mcup", version="0.1.0")` value. -/
structure Implementation where
  name : List Char
  version : List Char
deriving DecidableEq

inductive InitOutcome where
  | ok : Implementation → InitOutcome
  | nameError : String → InitOutcome
deriving DecidableEq

/-- Evaluation of the `__init__` argument expression
`client_info or types.Implementation(name="mcup", version="0.1.0")`
(line 35 of `mcup_session.py`): Python's `or` short-circuits on a truthy
left operand (an `Implementation` instance is always truthy); otherwise the
right operand is evaluated, which looks up the name `types` in the module
scope and raises an unhandled `NameError` when it is absent. -/
def evalClientInfoArg (clientInfo : Option Implementation) : InitOutcome :=
  match clientInfo with
  | some ci => .ok ci
  | none =>
    if mcupSessionModuleNames.contains "types" then
      .ok ⟨"mcup".toList, "0.1.0".toList⟩
    else .nameError "types"

/-- Session construction in `stdio_client` (lines 167–174) and
`websocket_client` (lines 73–79): `MCUPSession` is selected exactly when
`approval_mode == "cli"` and is constructed without `client_info` (so the
argument defaults to `None`); otherwise a plain `ClientSession` (outside
`src/`, modelled as raising no `NameError`) is constructed.  Returns
`some n` when construction raises a `NameError` for name `n`. -/
def transportSessionInit (approvalMode : Option (List Char)) : Option String :=
  if approvalMode = some cliMode then
    match evalClientInfoArg none with
    | .ok _ => none
    | .nameError n => some n
  else none

/-! ### Transport open and shutdown (`stdio_client`) -/

/-- Observable resource actions on the failure and shutdown paths of
`stdio_client`: closing the process stdin, the bounded wait, the forced
termination of the process tree, and the four channel-endpoint closes. -/
inductive SdAction where
  | closeStdin
  | waitProcess
  | terminateTree
  | closeReadStream
  | closeWriteStream
  | closeReadStreamWriter
  | closeWriteStreamReader
deriving DecidableEq

/-- Line 52 of `stdio/__init__.py`: the grace interval of the shutdown
wait, in time units. -/
def PROCESS_TERMINATION_TIMEOUT : ℚ := 2

/-- The four channel-endpoint closes in source order (`read_stream`,
`write_stream`, `read_stream_writer`, `write_stream_reader`; this order is
used both at lines 121–124 and at lines 188–191). -/
def closeAllChannels : List SdAction :=
  [.closeReadStream, .closeWriteStream, .closeReadStreamWriter,
   .closeWriteStreamReader]

/-- How the bounded wait for process exit can end: a return within the
interval, a `TimeoutError` from `fail_after`, or a `ProcessLookupError`
because the process was already gone. -/
inductive WaitOutcome where
  | exitedInTime
  | timedOut
  | processGone
deriving DecidableEq

/-- The `finally:` block of `stdio_client` (lines 175–191): close stdin if
present (failures swallowed), wait for exit under
`fail_after(PROCESS_TERMINATION_TIMEOUT)`; on `TimeoutError` call
`_terminate_process_tree` (whose own exception, if any, propagates and
skips the rest of the block); on `ProcessLookupError` do nothing; then
close the four channel endpoints.  Returns the action trace and whether the
block re-raised. -/
def shutdownSeq (hasStdin : Bool) (w : WaitOutcome) (terminateRaises : Bool) :
    List SdAction × Bool :=
  let stdinPart : List SdAction := if hasStdin then [.closeStdin] else []
  let waitStep : List SdAction × Bool :=
    match w with
    | .exitedInTime => ([.waitProcess], false)
    | .processGone => ([.waitProcess], false)
    | .timedOut => ([.waitProcess, .terminateTree], terminateRaises)
  if waitStep.2 then (stdinPart ++ waitStep.1, true)
  else (stdinPart ++ waitStep.1 ++ closeAllChannels, false)

/-- The open path of `stdio_client` (lines 111–125): when
`_create_platform_compatible_process` raises `OSError`, the four channel
endpoints are closed (lines 121–124) and the error is re-raised; on a
successful spawn nothing is closed.  Returns the action trace and whether
the open failed. -/
def openSeq (spawnRaises : Bool) : List SdAction × Bool :=
  if spawnRaises then (closeAllChannels, true) else ([], false)

/-- Open/closed state of the four channel endpoints. -/
structure Channels where
  readStreamOpen : Bool
  writeStreamOpen : Bool
  readStreamWriterOpen : Bool
  writeStreamReaderOpen : Bool
deriving DecidableEq

def Channels.allOpen : Channels := ⟨true, true, true, true⟩

def Channels.allClosed : Channels := ⟨false, false, false, false⟩

/-- Effect of one action on the channel-endpoint state. -/
def applySdAction (c : Channels) : SdAction → Channels
  | .closeReadStream => { c with readStreamOpen := false }
  | .closeWriteStream => { c with writeStreamOpen := false }
  | .closeReadStreamWriter => { c with readStreamWriterOpen := false }
  | .closeWriteStreamReader => { c with writeStreamReaderOpen := false }
  | _ => c

def runSdActions (c : Channels) (as : List SdAction) : Channels :=
  as.foldl applySdAction c

/-! ### Basic lemmas about `splitNl` -/

theorem splitNl_ne_nil (s : List Char) : splitNl s ≠ [] := by
  induction s with
  | nil => simp [splitNl]
  | cons c rest ih =>
    simp only [splitNl]
    split
    · simp
    · cases h : splitNl rest with
      | nil => simp
      | cons l ls => simp

theorem splitNl_no_newline {s : List Char} (h : '\n' ∉ s) :
    splitNl s = [s] := by
  induction s with
  | nil => simp [splitNl]
  | cons c rest ih =>
    simp only [List.mem_cons, not_or] at h
    have hc : c ≠ '\n' := fun hc => h.1 hc.symm
    simp only [splitNl, if_neg hc, ih h.2]

theorem mem_splitNl_no_newline {s : List Char} {l : List Char}
    (h : l ∈ splitNl s) : '\n' ∉ l := by
  induction s generalizing l with
  | nil =>
    simp only [splitNl, List.mem_singleton] at h
    simp [h]
  | cons c rest ih =>
    simp only [splitNl] at h
    by_cases hc : c = '\n'
    · rw [if_pos hc] at h
      rcases List.mem_cons.mp h with h | h
      · simp [h]
      · exact ih h
    · rw [if_neg hc] at h
      cases hsp : splitNl rest with
      | nil => exact absurd hsp (splitNl_ne_nil rest)
      | cons l0 ls =>
        rw [hsp] at h
        rcases List.mem_cons.mp h with h | h
        · subst h
          intro hmem
          rcases List.mem_cons.mp hmem with h | h
          · exact hc h.symm
          · exact ih (hsp ▸ List.mem_cons_self l0 ls) h
        · exact ih (hsp ▸ List.mem_cons.mpr (Or.inr h))

theorem getLastD_mem {α : Type} (L : List α) (d : α) (h : L ≠ []) :
    L.getLastD d ∈ L := by
  rw [List.getLastD_eq_getLast? , List.getLast?_eq_getLast L h]
  exact List.getLast_mem h

theorem getLastD_default_irrel {α : Type} {L : List α} (h : L ≠ []) (d d' : α) :
    L.getLastD d = L.getLastD d' := by
  cases L with
  | nil => exact absurd rfl h
  | cons a t => rw [List.getLastD_cons, List.getLastD_cons]

theorem getLastD_append_ne {α : Type} {l2 : List α} (h : l2 ≠ []) :
    ∀ (l1 : List α) (d : α), (l1 ++ l2).getLastD d = l2.getLastD d := by
  intro l1
  induction l1 with
  | nil => intro d; rfl
  | cons a t ih =>
    intro d
    rw [List.cons_append, List.getLastD_cons, ih a, getLastD_default_irrel h]

theorem splitNl_getLastD_no_newline (s : List Char) :
    '\n' ∉ (splitNl s).getLastD [] :=
  mem_splitNl_no_newline (getLastD_mem _ _ (splitNl_ne_nil s))

theorem splitNl_cons_nl (s : List Char) : splitNl ('\n' :: s) = [] :: splitNl s := by
  simp [splitNl]

theorem splitNl_cons_ne {c : Char} (hc : c ≠ '\n') (s : List Char) :
    splitNl (c :: s) = (c :: (splitNl s).headD []) :: (splitNl s).tail := by
  cases h : splitNl s with
  | nil => exact absurd h (splitNl_ne_nil s)
  | cons l ls => simp [splitNl, hc, h]

/-- Splitting a concatenation: the left part contributes its complete
segments, and its trailing incomplete segment merges with the right part. -/
theorem splitNl_append (x y : List Char) :
    splitNl (x ++ y) =
      (splitNl x).dropLast ++ splitNl ((splitNl x).getLastD [] ++ y) := by
  induction x with
  | nil => simp [splitNl]
  | cons c x ih =>
    by_cases hc : c = '\n'
    · subst hc
      cases h : splitNl x with
      | nil => exact absurd h (splitNl_ne_nil x)
      | cons l ls =>
        simp [List.cons_append, splitNl_cons_nl, h, ih,
          List.dropLast_cons_of_ne_nil]
    · cases h : splitNl x with
      | nil => exact absurd h (splitNl_ne_nil x)
      | cons l ls =>
        cases ls with
        | nil => simp [List.cons_append, splitNl_cons_ne hc, h, ih]
        | cons l2 ls' => simp [List.cons_append, splitNl_cons_ne hc, h, ih]

/-! ### Composition lemmas for `feed` -/

/-- Feeding an empty chunk with a carry-over buffer that holds no newline
(the invariant maintained by the reader loop) delivers nothing. -/
theorem feed_nil {Msg : Type} (p : List Char → Option Msg) {buffer : List Char}
    (h : '\n' ∉ buffer) : feed p buffer [] = ([], buffer) := by
  simp [feed, splitNl_no_newline h]

/-- Processing one chunk equals processing it in two arbitrary pieces:
the carry-over buffer makes `feed` insensitive to chunk boundaries. -/
theorem feed_append {Msg : Type} (p : List Char → Option Msg)
    (buffer c1 c2 : List Char) :
    feed p buffer (c1 ++ c2) =
      ((feed p buffer c1).1 ++ (feed p (feed p buffer c1).2 c2).1,
        (feed p (feed p buffer c1).2 c2).2) := by
  have key := splitNl_append (buffer ++ c1) c2
  have hne := splitNl_ne_nil ((splitNl (buffer ++ c1)).getLastD [] ++ c2)
  have h1 : (splitNl (buffer ++ (c1 ++ c2))).dropLast
      = (splitNl (buffer ++ c1)).dropLast ++
        (splitNl ((splitNl (buffer ++ c1)).getLastD [] ++ c2)).dropLast := by
    rw [← List.append_assoc, key, List.dropLast_append_of_ne_nil _ hne]
  have h2 : (splitNl (buffer ++ (c1 ++ c2))).getLastD []
      = (splitNl ((splitNl (buffer ++ c1)).getLastD [] ++ c2)).getLastD [] := by
    rw [← List.append_assoc, key, getLastD_append_ne hne]
  simp only [feed, h1, h2, List.map_append]

/-- The reader loop over many chunks equals one `feed` of their
concatenation (chunk-boundary independence of the whole loop). -/
theorem feedAll_flatten {Msg : Type} (p : List Char → Option Msg)
    (chunks : List (List Char)) :
    ∀ buffer : List Char, '\n' ∉ buffer →
      feedAll p buffer chunks = feed p buffer chunks.flatten := by
  induction chunks with
  | nil =>
    intro buffer h
    simp [feedAll, feed_nil p h]
  | cons c cs ih =>
    intro buffer h
    have hb' : '\n' ∉ (feed p buffer c).2 := by
      simp only [feed]
      exact splitNl_getLastD_no_newline (buffer ++ c)
    simp only [feedAll, List.flatten_cons, feed_append p buffer c cs.flatten,
      ih _ hb']

/-- A newline-free line followed by a newline splits off as one complete
segment. -/
theorem splitNl_line {l : List Char} (hl : '\n' ∉ l) (t : List Char) :
    splitNl (l ++ '\n' :: t) = l :: splitNl t := by
  induction l with
  | nil => simp [splitNl_cons_nl]
  | cons c l' ih =>
    simp only [List.mem_cons, not_or] at hl
    have hc : c ≠ '\n' := fun hcc => hl.1 hcc.symm
    have ih' := ih hl.2
    simp [List.cons_append, splitNl_cons_ne hc, ih']

/-- Feeding a sequence of newline-free lines, each terminated by a newline,
decodes exactly those lines in order and leaves an empty carry-over. -/
theorem feed_lines {Msg : Type} (p : List Char → Option Msg)
    (ls : List (List Char)) (h : ∀ l ∈ ls, '\n' ∉ l) :
    feed p [] (ls.map (· ++ ['\n'])).flatten =
      (ls.map (decodeLine p), []) := by
  induction ls with
  | nil => simp [feed, splitNl]
  | cons l ls ih =>
    have hl : '\n' ∉ l := h l (List.mem_cons_self l ls)
    have hls : ∀ l' ∈ ls, '\n' ∉ l' := fun l' hm => h l' (List.mem_cons.mpr (Or.inr hm))
    have step : (l ++ ['\n']) ++ (ls.map (· ++ ['\n'])).flatten =
        l ++ '\n' :: (ls.map (· ++ ['\n'])).flatten := by
      simp
    have hsplit : splitNl (l ++ '\n' :: (ls.map (· ++ ['\n'])).flatten) =
        l :: splitNl (ls.map (· ++ ['\n'])).flatten :=
      splitNl_line hl _
    have ihs := ih hls
    simp only [feed, List.nil_append] at ihs ⊢
    simp only [List.map_cons, List.flatten_cons, step, hsplit]
    cases hq : splitNl (ls.map (· ++ ['\n'])).flatten with
    | nil => exact absurd hq (splitNl_ne_nil _)
    | cons q qs =>
      rw [hq] at ihs
      have h1 : (q :: qs).dropLast.map (decodeLine p) = ls.map (decodeLine p) :=
        congrArg Prod.fst ihs
      have h2 : (q :: qs).getLastD [] = [] := congrArg Prod.snd ihs
      simp only [List.getLastD_eq_getLast? ] at h2 ⊢
      simp [List.dropLast_cons₂, h1, h2]


/-! ### Modelled codec round-trip lemmas -/

theorem decodeJsonTail_replicate (m : Nat) :
    decodeJsonTail (List.replicate m 'x' ++ ['\x7d']) = some m := by
  induction m with
  | zero => rfl
  | succ n ih =>
    have hx : ('x' : Char) ≠ '\x7d' := by decide
    rw [List.replicate_succ, List.cons_append]
    simp [decodeJsonTail, hx, ih]

theorem validateJson_encodeJsonBody (m : Nat) :
    validateJson (encodeJsonBody m) = some m := by
  simp [validateJson, encodeJsonBody, decodeJsonTail_replicate]

theorem encodeJsonBody_no_newline (m : Nat) : '\n' ∉ encodeJsonBody m := by
  intro h
  simp only [encodeJsonBody, List.mem_cons, List.mem_append,
    List.mem_replicate, List.mem_singleton] at h
  rcases h with h | ⟨_, h⟩ | h <;> exact absurd h (by decide)

/-! ### Decoded-unit bookkeeping lemmas -/

theorem isError_decodeLine {Msg : Type} (p : List Char → Option Msg)
    (l : List Char) : (decodeLine p l).isError = (p l).isNone := by
  cases h : p l <;> simp [decodeLine, h, Decoded.isError]

theorem msg?_decodeLine {Msg : Type} (p : List Char → Option Msg)
    (l : List Char) : (decodeLine p l).msg? = p l := by
  cases h : p l <;> simp [decodeLine, h, Decoded.msg?]

theorem filterMap_msg?_map {Msg : Type} (p : List Char → Option Msg)
    (ls : List (List Char)) :
    (ls.map (decodeLine p)).filterMap Decoded.msg? = ls.filterMap p := by
  induction ls with
  | nil => rfl
  | cons l t ih =>
    cases h : p l <;>
      simp [decodeLine, h, Decoded.msg?, ih, List.filterMap_cons]

theorem countP_isError_map {Msg : Type} (p : List Char → Option Msg)
    (ls : List (List Char)) :
    (ls.map (decodeLine p)).countP Decoded.isError
      = ls.countP (fun l => (p l).isNone) := by
  rw [List.countP_map]
  exact List.countP_congr fun l _ => by simp [Function.comp, isError_decodeLine]

theorem countP_not_isError_map {Msg : Type} (p : List Char → Option Msg)
    (ls : List (List Char)) :
    (ls.map (decodeLine p)).countP (fun u => ! u.isError)
      = ls.countP (fun l => (p l).isSome) := by
  rw [List.countP_map]
  refine List.countP_congr fun l _ => ?_
  cases h : p l <;> simp [Function.comp, decodeLine, h, Decoded.isError]

theorem countP_isSome_add_isNone {Msg : Type} (p : List Char → Option Msg)
    (ls : List (List Char)) :
    ls.countP (fun l => (p l).isSome) + ls.countP (fun l => (p l).isNone)
      = ls.length := by
  induction ls with
  | nil => rfl
  | cons l t ih =>
    cases h : p l <;> simp [List.countP_cons, h] <;> omega

/-! ### Claim C3 — encode-then-decode round-trip -/

/-- C3: for every message M, feeding the parser the bytes produced by
encoding M (the canonical encoding followed by a single newline, as written
by `stdin_writer`) yields exactly one decoded unit equal to M, with no
carry-over left in the reader of `stdout_reader`. -/
theorem c3_encode_decode_roundtrip (m : Nat) :
    feed validateJson [] (encodeMsg m) = ([Decoded.message m], []) := by
  have hnl : ∀ l ∈ [encodeJsonBody m], '\n' ∉ l := by
    intro l hl
    simp only [List.mem_singleton] at hl
    subst hl
    exact encodeJsonBody_no_newline m
  have h := feed_lines validateJson [encodeJsonBody m] hnl
  simpa [encodeMsg, encodeWith, decodeLine, validateJson_encodeJsonBody] using h

/-! ### Claim C4 — chunk-boundary independence -/

/-- C4: for every pair of messages and every way of splitting the
concatenation `encode(M1) ++ encode(M2)` into byte chunks, feeding the
chunks in order through the reader loop (carry-over buffer, split on
newline, parse complete segments, retain the incomplete tail) yields
exactly the two decoded messages [M1, M2] in that order. -/
theorem c4_chunk_boundary_independence (m1 m2 : Nat)
    (chunks : List (List Char))
    (h : chunks.flatten = encodeMsg m1 ++ encodeMsg m2) :
    feedAll validateJson [] chunks
      = ([Decoded.message m1, Decoded.message m2], []) := by
  have hnl : ∀ l ∈ [encodeJsonBody m1, encodeJsonBody m2], '\n' ∉ l := by
    intro l hl
    rcases List.mem_cons.mp hl with h1 | h1
    · subst h1; exact encodeJsonBody_no_newline m1
    · simp only [List.mem_singleton] at h1
      subst h1; exact encodeJsonBody_no_newline m2
  have hlines := feed_lines validateJson [encodeJsonBody m1, encodeJsonBody m2] hnl
  have hfl : (([encodeJsonBody m1, encodeJsonBody m2]).map (· ++ ['\n'])).flatten
      = encodeMsg m1 ++ encodeMsg m2 := by
    simp [encodeMsg, encodeWith]
  rw [hfl] at hlines
  rw [feedAll_flatten validateJson chunks [] (by simp), h, hlines]
  simp [decodeLine, validateJson_encodeJsonBody]

/-- Witness for C4 at concrete messages 0 and 1 with chunk boundaries that
cut across both encoded messages. -/
theorem c4_chunk_boundary_independence_witness :
    ([['\x7b', '\x7d'], ['\n', '\x7b', 'x'], ['\x7d', '\n']] :
        List (List Char)).flatten = encodeMsg 0 ++ encodeMsg 1
    ∧ feedAll validateJson []
        [['\x7b', '\x7d'], ['\n', '\x7b', 'x'], ['\x7d', '\n']]
        = ([Decoded.message 0, Decoded.message 1], []) :=
  ⟨by decide,
    c4_chunk_boundary_independence 0 1
      [['\x7b', '\x7d'], ['\n', '\x7b', 'x'], ['\x7d', '\n']] (by decide)⟩

/-! ### Claim C2 — one malformed line among N well-formed lines -/

/-- C2: for an input stream of N well-formed newline-terminated lines and
one malformed line, the frame parser delivers exactly one in-band
TransportError and N decoded messages, in the original relative order, and
keeps parsing every line (the websocket reader delivers the same units for
the same lines as frames). -/
theorem c2_single_malformed_line (N : Nat) (ls : List (List Char))
    (hnl : ∀ l ∈ ls, '\n' ∉ l)
    (hlen : ls.length = N + 1)
    (hbad : ls.countP (fun l => (validateJson l).isNone) = 1) :
    (feed validateJson [] (ls.map (· ++ ['\n'])).flatten).1
        = ls.map (decodeLine validateJson)
    ∧ ((feed validateJson [] (ls.map (· ++ ['\n'])).flatten).1).countP
        Decoded.isError = 1
    ∧ ((feed validateJson [] (ls.map (· ++ ['\n'])).flatten).1).countP
        (fun u => ! u.isError) = N
    ∧ ((feed validateJson [] (ls.map (· ++ ['\n'])).flatten).1).filterMap
        Decoded.msg? = ls.filterMap validateJson
    ∧ wsRead validateJson ls
        = (feed validateJson [] (ls.map (· ++ ['\n'])).flatten).1 := by
  have hout : (feed validateJson [] (ls.map (· ++ ['\n'])).flatten).1
      = ls.map (decodeLine validateJson) := by
    rw [feed_lines validateJson ls hnl]
  have hgood : ls.countP (fun l => (validateJson l).isSome) = N := by
    have := countP_isSome_add_isNone validateJson ls
    omega
  refine ⟨hout, ?_, ?_, ?_, ?_⟩
  · rw [hout, countP_isError_map, hbad]
  · rw [hout, countP_not_isError_map, hgood]
  · rw [hout, filterMap_msg?_map]
  · rw [hout, wsRead]

/-- Witness for C2: two well-formed lines around one malformed line. -/
theorem c2_single_malformed_line_witness :
    (∀ l ∈ ([['\x7b', '\x7d'], ['o', 'o', 'p', 's'], ['\x7b', 'x', 'x', '\x7d']] :
        List (List Char)), '\n' ∉ l)
    ∧ ([['\x7b', '\x7d'], ['o', 'o', 'p', 's'], ['\x7b', 'x', 'x', '\x7d']] :
        List (List Char)).length = 2 + 1
    ∧ ([['\x7b', '\x7d'], ['o', 'o', 'p', 's'], ['\x7b', 'x', 'x', '\x7d']] :
        List (List Char)).countP (fun l => (validateJson l).isNone) = 1
    ∧ ((feed validateJson []
        (([['\x7b', '\x7d'], ['o', 'o', 'p', 's'], ['\x7b', 'x', 'x', '\x7d']] :
          List (List Char)).map (· ++ ['\n'])).flatten).1).countP
        Decoded.isError = 1 :=
  ⟨by decide, by decide, by decide,
    (c2_single_malformed_line 2
      [['\x7b', '\x7d'], ['o', 'o', 'p', 's'], ['\x7b', 'x', 'x', '\x7d']]
      (by decide) (by decide) (by decide)).2.1⟩

/-! ### Substring characterization of the keyword heuristic -/

theorem startsWithList_iff (n : List Char) :
    ∀ h : List Char, startsWithList h n = true ↔ ∃ post, h = n ++ post := by
  induction n with
  | nil =>
    intro h
    simp [startsWithList]
  | cons d ns ih =>
    intro h
    cases h with
    | nil =>
      simp [startsWithList]
    | cons c hs =>
      simp only [startsWithList, Bool.and_eq_true, beq_iff_eq, ih hs,
        List.cons_append, List.cons.injEq]
      constructor
      · rintro ⟨hcd, post, rfl⟩
        exact ⟨post, hcd, rfl⟩
      · rintro ⟨post, hcd, rfl⟩
        exact ⟨hcd, post, rfl⟩

theorem pyIn_iff (needle : List Char) :
    ∀ hay : List Char, pyIn needle hay = true ↔
      ∃ pre post, hay = pre ++ needle ++ post := by
  intro hay
  induction hay with
  | nil =>
    simp only [pyIn, List.isEmpty_iff]
    constructor
    · rintro rfl
      exact ⟨[], [], rfl⟩
    · rintro ⟨pre, post, h⟩
      rcases List.append_eq_nil.mp h.symm with ⟨h1, h2⟩
      exact (List.append_eq_nil.mp h1).2
  | cons c rest ih =>
    simp only [pyIn, Bool.or_eq_true, startsWithList_iff, ih]
    constructor
    · rintro (⟨post, h⟩ | ⟨pre, post, h⟩)
      · exact ⟨[], post, by simpa using h⟩
      · exact ⟨c :: pre, post, by simp [h]⟩
    · rintro ⟨pre, post, h⟩
      cases pre with
      | nil =>
        exact Or.inl ⟨post, by simpa using h⟩
      | cons c0 pre' =>
        rw [List.cons_append, List.cons_append] at h
        injection h with h1 h2
        exact Or.inr ⟨pre', post, by rw [h2, List.append_assoc]⟩

/-! ### Claim C8 — name-based mutating classification -/

/-- C8 as stated is false on the code: the call name is lowercased but each
keyword is used verbatim, so a keyword containing an uppercase letter is
never matched even when it is a case-insensitive substring of the name.
The spec-words classifier and the code disagree at keyword "WRITE" and name
"write_data". -/
theorem c8_classify_counterexample :
    specClassifyMutating ["WRITE".toList] "write_data".toList = true
    ∧ isMutatingCall ["WRITE".toList] "write_data".toList = false := by
  decide

/-- C8 amended: a call classifies as mutating exactly when some keyword is
verbatim a contiguous substring of the lowercased call name (matching is
case-insensitive in the name but case-sensitive in the keyword); the
spec's three examples, whose keywords are lowercase, hold as stated. -/
theorem c8_classify_amended (keywords : List (List Char)) (name : List Char) :
    (isMutatingCall keywords name = true ↔
      ∃ kw ∈ keywords, ∃ pre post, pyLower name = pre ++ kw ++ post)
    ∧ isMutatingCall ["write".toList] "write_data".toList = true
    ∧ isMutatingCall ["write".toList] "get_data".toList = false
    ∧ isMutatingCall ["write".toList, "update".toList]
        "update-widget".toList = true := by
  refine ⟨?_, by decide, by decide, by decide⟩
  simp only [isMutatingCall, List.any_eq_true, pyIn_iff]

/-! ### Claim C1 — the approval gate accepts/denies -/

/-- C1 as stated is false on the code on two counts: the input is stripped
before comparison, so the line " y " — which is not exactly the
case-insensitive string "y" — is approved and forwarded; and a failing
input read re-raises the read error rather than raising the denial error
carrying the tool name. -/
theorem c1_approval_counterexample :
    call_tool (some cliMode) defaultMutatingToolKeywords
        "write_data".toList () (.ok [' ', 'y', ' '])
      = (CallOutcome.forwarded "write_data".toList (), true)
    ∧ pyLower [' ', 'y', ' '] ≠ ['y']
    ∧ (call_tool (some cliMode) defaultMutatingToolKeywords
        "write_data".toList () (.error ())).1 = CallOutcome.inputFailed := by
  decide

/-- C1 amended: with approval enabled (`approval_mode = "cli"`) and a
mutating tool name, the call is forwarded to the underlying session iff the
single line of interactive input, stripped of surrounding whitespace and
lowercased, equals "y"; on any other line the call fails with the denial
error carrying the tool name; a read failure re-raises the read error
itself; in both failure cases the underlying session's `call_tool` is never
invoked, and the prompt is shown in every case. -/
theorem c1_approval_gate_amended {Args : Type}
    (approvalMode : Option (List Char)) (keywords : List (List Char))
    (name : List Char) (arguments : Args) (input : Except Unit (List Char))
    (hmode : approvalMode = some cliMode)
    (hmut : isMutatingCall keywords name = true) :
    ((call_tool approvalMode keywords name arguments input).1
        = CallOutcome.forwarded name arguments
      ↔ ∃ line, input = .ok line ∧ pyLower (pyStrip line) = ['y'])
    ∧ (∀ line, input = .ok line → pyLower (pyStrip line) ≠ ['y'] →
        (call_tool approvalMode keywords name arguments input).1
          = CallOutcome.deniedError name)
    ∧ (∀ e : Unit, input = .error e →
        (call_tool approvalMode keywords name arguments input).1
          = CallOutcome.inputFailed)
    ∧ (call_tool approvalMode keywords name arguments input).2 = true := by
  subst hmode
  unfold call_tool
  rw [if_pos ⟨hmut, rfl⟩]
  cases input with
  | error e => simp
  | ok line =>
    by_cases hy : pyLower (pyStrip line) = ['y']
    · simp [hy]
    · simp [hy]

/-- Witness for C1 amended, at the approved input "y". -/
theorem c1_approval_gate_amended_witness :
    (some cliMode : Option (List Char)) = some cliMode
    ∧ isMutatingCall defaultMutatingToolKeywords "write_data".toList = true
    ∧ (call_tool (some cliMode) defaultMutatingToolKeywords
        "write_data".toList ()
        (.ok ['y'] : Except Unit (List Char))).2 = true :=
  ⟨rfl, by decide,
    (c1_approval_gate_amended (some cliMode) defaultMutatingToolKeywords
      "write_data".toList () (.ok ['y']) rfl (by decide)).2.2.2⟩

/-! ### Claim C9 — no gate when approval disabled or non-mutating -/

/-- C9: whenever approval is disabled (`approval_mode` is not "cli") or the
tool name classifies as non-mutating, `call_tool` forwards immediately to
the underlying session with the same name and arguments, and the
interactive approval prompt is never triggered. -/
theorem c9_no_gate_forwards_unchanged {Args : Type}
    (approvalMode : Option (List Char)) (keywords : List (List Char))
    (name : List Char) (arguments : Args) (input : Except Unit (List Char))
    (h : approvalMode ≠ some cliMode ∨ isMutatingCall keywords name = false) :
    call_tool approvalMode keywords name arguments input
      = (CallOutcome.forwarded name arguments, false) := by
  unfold call_tool
  rw [if_neg]
  rintro ⟨hmut, hmode⟩
  rcases h with h | h
  · exact h hmode
  · rw [h] at hmut
    exact Bool.false_ne_true hmut

/-- Witness for C9: with approval disabled, a mutating-named call is
forwarded without any prompt. -/
theorem c9_no_gate_forwards_unchanged_witness :
    ((none : Option (List Char)) ≠ some cliMode
      ∨ isMutatingCall defaultMutatingToolKeywords "write_data".toList = false)
    ∧ call_tool none defaultMutatingToolKeywords "write_data".toList ()
        (.ok ['n'] : Except Unit (List Char))
      = (CallOutcome.forwarded "write_data".toList (), false) :=
  ⟨Or.inl (by decide),
    c9_no_gate_forwards_unchanged none defaultMutatingToolKeywords
      "write_data".toList () (.ok ['n']) (Or.inl (by decide))⟩

/-! ### Claim C10 — NameError on default client_info -/

/-- C10: `mcup_session.py` never binds the name `types` (line 6 imports only
`CallToolResult` from `mcup.types`), so constructing `MCUPSession` with
`client_info` omitted or None evaluates `types.Implementation(...)` and
raises an unhandled NameError; a provided `client_info` short-circuits the
`or` and succeeds; consequently `stdio_client` and `websocket_client` with
`approval_mode='cli'` — which construct `MCUPSession` without
`client_info` — fail at session construction, and no NameError arises
otherwise. -/
theorem c10_client_info_name_error :
    evalClientInfoArg none = InitOutcome.nameError "types"
    ∧ mcupSessionModuleNames.contains "types" = false
    ∧ (∀ ci : Implementation, evalClientInfoArg (some ci) = InitOutcome.ok ci)
    ∧ transportSessionInit (some cliMode) = some "types"
    ∧ transportSessionInit none = none := by
  refine ⟨by decide, by decide, fun ci => rfl, by decide, by decide⟩

/-! ### Claim C5 — forced termination exactly on timeout -/

/-- C5: on every shutdown path, the forced termination of the whole process
tree is issued exactly once when the bounded wait times out, and never when
the process exited within the grace interval or was already gone
(ProcessLookupError); the grace interval is 2.0 time units. -/
theorem c5_forced_termination_exactly_on_timeout
    (hasStdin : Bool) (w : WaitOutcome) (terminateRaises : Bool) :
    (shutdownSeq hasStdin w terminateRaises).1.count SdAction.terminateTree
      = (if w = WaitOutcome.timedOut then 1 else 0)
    ∧ PROCESS_TERMINATION_TIMEOUT = 2 := by
  refine ⟨?_, rfl⟩
  cases w <;> cases hasStdin <;> cases terminateRaises <;> decide

/-! ### Claim C6 — channel closes on shutdown -/

/-- C6 as stated is false on the code: on the shutdown path where the
bounded wait times out and `_terminate_process_tree` itself raises, the
four channel closes of lines 188–191 are skipped and the exception
propagates with every endpoint still open. -/
theorem c6_shutdown_closes_counterexample :
    runSdActions Channels.allOpen (shutdownSeq true WaitOutcome.timedOut true).1
      ≠ Channels.allClosed
    ∧ (shutdownSeq true WaitOutcome.timedOut true).2 = true
    ∧ (shutdownSeq true WaitOutcome.timedOut true).1.count
        SdAction.closeReadStream = 0 := by
  decide

/-- C6 amended: on every shutdown path on which the forced-termination step
does not raise (including the timeout path with successful termination and
the already-gone path), all four channel endpoints are closed — each
exactly once — before the block returns; when forced termination raises,
the closes are skipped and the exception propagates. -/
theorem c6_shutdown_closes_channels_amended (hasStdin : Bool)
    (w : WaitOutcome) (terminateRaises : Bool)
    (h : ¬(w = WaitOutcome.timedOut ∧ terminateRaises = true)) :
    runSdActions Channels.allOpen
        (shutdownSeq hasStdin w terminateRaises).1 = Channels.allClosed
    ∧ (∀ a ∈ closeAllChannels,
        (shutdownSeq hasStdin w terminateRaises).1.count a = 1)
    ∧ (shutdownSeq hasStdin w terminateRaises).2 = false := by
  cases w with
  | timedOut =>
    cases terminateRaises with
    | true => exact absurd ⟨rfl, rfl⟩ h
    | false => cases hasStdin <;> decide
  | exitedInTime => cases hasStdin <;> cases terminateRaises <;> decide
  | processGone => cases hasStdin <;> cases terminateRaises <;> decide

/-- Witness for C6 amended at the common path: process exits in time. -/
theorem c6_shutdown_closes_channels_amended_witness :
    ¬(WaitOutcome.exitedInTime = WaitOutcome.timedOut ∧ false = true)
    ∧ runSdActions Channels.allOpen
        (shutdownSeq true WaitOutcome.exitedInTime false).1
      = Channels.allClosed :=
  ⟨by decide,
    (c6_shutdown_closes_channels_amended true WaitOutcome.exitedInTime false
      (by decide)).1⟩

/-! ### Claim C7 — spawn failure releases all channels -/

/-- C7: when the OS rejects process creation (`OSError` from the spawn), the
open call fails and every channel endpoint opened so far — both channels,
producer and consumer sides — is closed exactly once before the error
propagates; on a successful spawn, the open path closes nothing and does
not fail. -/
theorem c7_spawn_failure_releases_channels :
    (openSeq true).2 = true
    ∧ runSdActions Channels.allOpen (openSeq true).1 = Channels.allClosed
    ∧ (∀ a ∈ closeAllChannels, (openSeq true).1.count a = 1)
    ∧ openSeq false = ([], false) := by
  decide
